import Mathlib

/-!
# tetration-vc: inventory export (`main.go`)

A shallow embedding of `main.go`: the tag formatting loop, the row filter, the
snapshot export, the event handler and the batch export loop, followed by the
properties proved about them.

Conventions of the embedding.
* Go `string` is `String`; `[]string` is `List String`.
* `int32` field keys are `Int` (they are only compared, never computed with).
* `bytes.Buffer` plus the `csv.Writer` wrapped around it is the structure `Sink`:
  `body` is the buffer, `pending` the bytes the writer still holds.
* Calls into libraries that are not part of the repository are either embedded
  from their documented behaviour (`encoding/csv`, `fmt`) or kept as a parameter
  (`sort.Sort`, the instance retrieval, the outcome of an upload).
-/

namespace TetrationVC

/-! ## Data model -/

/-- EXPORT_INTERVAL of `main.go` line 27: `time.Minute`, in nanoseconds. -/
def EXPORT_INTERVAL : Nat := 60 * 1000000000

/-- The two concrete types behind `types.BaseCustomFieldValue`: the plain
`CustomFieldValue` (a key only) and `CustomFieldStringValue` (key and `Value`). -/
inductive BaseCustomFieldValue where
  | CustomFieldValue (Key : Int)
  | CustomFieldStringValue (Key : Int) (Value : String)
  deriving DecidableEq, Repr

/-- The key of a custom value: `kv.GetCustomFieldValue().Key`. -/
def BaseCustomFieldValue.Key : BaseCustomFieldValue → Int
  | .CustomFieldValue k => k
  | .CustomFieldStringValue k _ => k

/-- The part of `types.GuestInfo` that `main.go` reads. -/
structure GuestInfo where
  IpAddress : String
  deriving DecidableEq, Repr

/-- The part of `mo.VirtualMachine` that `main.go` retrieves: `name`,
`guest.ipAddress` (`Guest` is a pointer, `none` is `nil`) and `customValue`. -/
structure VirtualMachine where
  Name : String
  Guest : Option GuestInfo
  CustomValue : List BaseCustomFieldValue
  deriving DecidableEq, Repr

/-- The part of `types.CustomFieldDef` that `main.go` reads. -/
structure CustomFieldDef where
  Key : Int
  Name : String
  deriving DecidableEq, Repr

/-- The Go map `fields : map[int32]string`: `none` where the key is absent. -/
abbrev FieldMap := Int → Option String

/-- Lines 140-143: `fields := make(map[int32]string)` filled with
`fields[field.Key] = field.Name` for each definition, later ones overwriting. -/
def mkFields (customFields : List CustomFieldDef) : FieldMap :=
  customFields.foldl
    (fun fields field => fun k => if k = field.Key then some field.Name else fields k)
    (fun _ => none)

/-- Indexing a Go map, `fields[k]`: the zero value `""` when the key is absent. -/
def FieldMap.index (fields : FieldMap) (k : Int) : String :=
  (fields k).getD ""

/-! ## Tag formatting (lines 160-175 and 212-225) -/

/-- What `%s` prints for `val := ref.FieldByName("Value")`: the string of a
`CustomFieldStringValue`; a plain `CustomFieldValue` has no such field, the
reflected value is invalid and `fmt` prints its fixed marker. -/
def fmtValue : BaseCustomFieldValue → String
  | .CustomFieldStringValue _ v => v
  | .CustomFieldValue _ => "<invalid reflect.Value>"

/-- Lines 167-169: `pair := fmt.Sprintf("%s=%s", key, val)` with
`key := fields[kv.GetCustomFieldValue().Key]`. -/
def pairOf (fields : FieldMap) (kv : BaseCustomFieldValue) : String :=
  fields.index kv.Key ++ "=" ++ fmtValue kv

/-- The body of `for _, kv := range vm.CustomValue`, threaded through the
buffer `b`: `b.WriteString(pair); b.WriteString(";")`. -/
def tagLoop (fields : FieldMap) (b : String) : List BaseCustomFieldValue → String
  | [] => b
  | kv :: rest => tagLoop fields ((b ++ pairOf fields kv) ++ ";") rest

/-- The tag column `b.String()`: `b := new(bytes.Buffer)`, and the loop runs
under `if len(vm.CustomValue) > 0`. -/
def tagString (fields : FieldMap) (customValue : List BaseCustomFieldValue) : String :=
  if customValue.length > 0 then tagLoop fields "" customValue else ""

/-- The record written for one instance, if any (lines 157-176 and 210-226).
The guard is `vm.Guest != nil && &vm.Guest.IpAddress != nil`; its second
conjunct compares the address of a struct field with `nil` and is always
true, so the guard passes exactly when `Guest` is present. Under the guard the
record is `[]string{addr, "Default", vm.Name, b.String()}` with
`addr = vm.Guest.IpAddress`. -/
def vmRow (fields : FieldMap) (vm : VirtualMachine) : Option (List String) :=
  match vm.Guest with
  | none => none
  | some g => some [g.IpAddress, "Default", vm.Name, tagString fields vm.CustomValue]

/-! ## `encoding/csv` writer over a `bytes.Buffer` -/

/-- Code points for which `unicode.IsSpace` holds. -/
def isSpace (c : Char) : Bool :=
  c.toNat ∈ [0x09, 0x0A, 0x0B, 0x0C, 0x0D, 0x20, 0x85, 0xA0, 0x1680, 0x2028, 0x2029,
    0x202F, 0x205F, 0x3000] || (0x2000 ≤ c.toNat && c.toNat ≤ 0x200A)

/-- The `fieldNeedsQuotes` test of `csv.Writer` with the default comma. -/
def fieldNeedsQuotes (field : String) : Bool :=
  if field = "" then false
  else if field = "\\." then true
  else if field.data.any (fun c => c = ',' || c = '"' || c = '\r' || c = '\n') then true
  else match field.data with
    | [] => false
    | r1 :: _ => isSpace r1

/-- One field as `csv.Writer.Write` emits it (`UseCRLF` is false): verbatim, or
between double quotes with every double quote doubled. -/
def csvField (field : String) : String :=
  if fieldNeedsQuotes field then
    "\"" ++ String.join (field.data.map (fun c => if c = '"' then "\"\"" else String.singleton c))
      ++ "\""
  else field

/-- One record as `csv.Writer.Write` emits it: fields separated by commas, then
a newline. -/
def csvRecord (record : List String) : String :=
  String.intercalate "," (record.map csvField) ++ "\n"

/-- The text of a list of records written one after the other. -/
def csvAll (records : List (List String)) : String :=
  String.join (records.map csvRecord)

/-- The header record written at lines 148, 236 and 249. -/
def header : List String := ["IP", "VRF", "VM Name", "VM Tags"]

/-- The pair `body` (a `bytes.Buffer`) and `w := csv.NewWriter(body)`.
`pending` is what has been written to `w` and not yet flushed into `body`.
(The writer may hand a full internal buffer over to `body` early; `body` is
only read and reset right after a `Flush`, where this makes no difference.) -/
structure Sink where
  body : String
  pending : String
  deriving DecidableEq, Repr

/-- Lines 146-147: `body := new(bytes.Buffer); w := csv.NewWriter(body)`. -/
def Sink.new : Sink := { body := "", pending := "" }

/-- The call `w.Write(record)`. -/
def Sink.Write (s : Sink) (record : List String) : Sink :=
  { s with pending := s.pending ++ csvRecord record }

/-- The call `w.Flush()`. -/
def Sink.Flush (s : Sink) : Sink :=
  { body := s.body ++ s.pending, pending := "" }

/-- The call `body.Reset()`. -/
def Sink.Reset (s : Sink) : Sink :=
  { s with body := "" }

/-! ## Snapshot export (lines 145-192) -/

/-- Go's `<` on strings: lexicographic comparison of the bytes, which on
well-formed UTF-8 is the lexicographic comparison of the code points. -/
def strLess (a b : String) : Bool :=
  decide (a.toList < b.toList)

/-- Method `ByName.Less` of line 58: `n[i].Name < n[j].Name`. -/
def ByName.Less (a b : VirtualMachine) : Bool :=
  strLess a.Name b.Name

/-- The documented contract of the library call `sort.Sort(ByName(vmt))`: the
slice is rearranged (a permutation) into ascending order as determined by
`Less`, that is, no later element is `Less` than an earlier one. The library
states that the sort is not guaranteed to be stable, and the contract says
nothing about the relative order of elements with equal names. -/
structure SortContract (sortSort : List VirtualMachine → List VirtualMachine) : Prop where
  perm : ∀ vmt, (sortSort vmt).Perm vmt
  ascending : ∀ vmt, (sortSort vmt).Pairwise (fun a b => ByName.Less b a = false)

/-- The loop `for _, vm := range vmt` of lines 155-178, as far as it writes to
the CSV writer: one `w.Write` per instance that passes the guard. -/
def writeRows (fields : FieldMap) (s : Sink) : List VirtualMachine → Sink
  | [] => s
  | vm :: rest =>
    match vmRow fields vm with
    | none => writeRows fields s rest
    | some row => writeRows fields (s.Write row) rest

/-- The state of `body` and `w` after line 181: header written, instances
sorted by `sort.Sort(ByName(vmt))` (the parameter `sortSort`), rows written,
writer flushed. -/
def snapshotSink (sortSort : List VirtualMachine → List VirtualMachine) (fields : FieldMap)
    (vmt : List VirtualMachine) : Sink :=
  (writeRows fields (Sink.new.Write header) (sortSort vmt)).Flush

/-- The data records of the snapshot, in the order they are written. -/
def snapshotRows (sortSort : List VirtualMachine → List VirtualMachine) (fields : FieldMap)
    (vmt : List VirtualMachine) : List (List String) :=
  (sortSort vmt).filterMap (vmRow fields)

/-- One call `h4.Upload(payload, flag, flag)` as the ingestion client receives
it. The client is an external library; the two flags are named after the
interface `upload(payload, append, verifyTLS)` of the specification. -/
structure UploadCall where
  payload : String
  append : Bool
  verifyTLS : Bool
  deriving DecidableEq, Repr

/-- Line 192: `h4.Upload(body.Bytes(), true, true)` after the snapshot. -/
def snapshotUpload (sortSort : List VirtualMachine → List VirtualMachine) (fields : FieldMap)
    (vmt : List VirtualMachine) : UploadCall :=
  { payload := (snapshotSink sortSort fields vmt).body, append := true, verifyTLS := true }

/-! ## Event handler (lines 202-231) -/

/-- A managed object reference. -/
abbrev ManagedObjectReference := String

/-- The events the handler distinguishes in its type switch. -/
inductive BaseEvent where
  | CustomFieldValueChangedEvent (vm : ManagedObjectReference)
  | VmRenamedEvent (vm : ManagedObjectReference)
  | Other
  deriving DecidableEq, Repr

/-- The records `handleEvent` sends on the channel `rows`, in order.
`retrieveOne` stands for `pc.RetrieveOne` filling `var vm mo.VirtualMachine`
(its error is ignored by the code; a failed retrieval leaves the zero value,
whose `Guest` is `nil`). -/
def handleEvent (retrieveOne : ManagedObjectReference → VirtualMachine) (fields : FieldMap) :
    List BaseEvent → List (List String)
  | [] => []
  | .CustomFieldValueChangedEvent ref :: rest =>
    (vmRow fields (retrieveOne ref)).toList ++ handleEvent retrieveOne fields rest
  | .VmRenamedEvent ref :: rest =>
    (vmRow fields (retrieveOne ref)).toList ++ handleEvent retrieveOne fields rest
  | .Other :: rest => handleEvent retrieveOne fields rest

/-! ## Batch export loop (lines 233-254) -/

/-- What the `select` of the loop receives: a record from the channel `rows`,
or the firing of the timer. `uploadOk` is whether the upload made at that tick
(if one is made) succeeds at the ingestion platform; the code only prints the
response. -/
inductive LoopEvent where
  | row (record : List String)
  | timer (uploadOk : Bool)
  deriving DecidableEq, Repr

/-- The variables of the goroutine: the shared `body`/`w` and `written`. -/
structure LoopState where
  sink : Sink
  written : Bool
  deriving DecidableEq, Repr

/-- Lines 234-236: `written := false; body.Reset(); w.Write(header)`, from the
sink the snapshot left behind. -/
def loopStart (s : Sink) : LoopState :=
  { sink := s.Reset.Write header, written := false }

/-- One iteration of the `for { select { ... } }` loop: the new state and the
upload call made in this iteration, if any. -/
def loopStep (st : LoopState) : LoopEvent → LoopState × Option UploadCall
  | .row record => ({ sink := st.sink.Write record, written := true }, none)
  | .timer _ =>
    if st.written then
      let flushed := st.sink.Flush
      let call : UploadCall := { payload := flushed.body, append := true, verifyTLS := true }
      ({ sink := flushed.Reset.Write header, written := false }, some call)
    else (st, none)

/-- The loop run over a sequence of events: the final state and, for each
event, the upload call made at it (`none` when no call is made). -/
def loopRun (st : LoopState) : List LoopEvent → LoopState × List (Option UploadCall)
  | [] => (st, [])
  | e :: rest =>
    let r := loopRun (loopStep st e).1 rest
    (r.1, (loopStep st e).2 :: r.2)

/-- The loop state when the goroutine enters its `for`: an empty `body`, the
header held by the writer, `written = false`. Every snapshot leads to it
(`loopStart_snapshotSink`). -/
def loopInit : LoopState :=
  { sink := { body := "", pending := csvRecord header }, written := false }

/-- The records received since the last flush, read off the observable trace
(each event paired with the upload call made at it): a received record is
appended, a tick at which an upload call was made starts afresh, a tick
without an upload call changes nothing. -/
def sinceFlush (acc : List (List String)) :
    List (LoopEvent × Option UploadCall) → List (List String)
  | [] => acc
  | (.row record, _) :: rest => sinceFlush (acc ++ [record]) rest
  | (.timer _, some _) :: rest => sinceFlush [] rest
  | (.timer _, none) :: rest => sinceFlush acc rest

/-- The records received since the last flush in the run of the loop from
`loopInit` over `events`. -/
def receivedSinceFlush (events : List LoopEvent) : List (List String) :=
  sinceFlush [] (events.zip (loopRun loopInit events).2)

/-! ## Batch export loop with explicit time -/

/-- The loop state together with the instant (in nanoseconds) at which the
channel returned by the pending `time.After(EXPORT_INTERVAL)` delivers. -/
structure TimedLoop where
  st : LoopState
  deadline : Nat
  deriving DecidableEq, Repr

/-- An event of the timed loop: a record received at instant `now`, or the
pending timer firing (at its deadline). -/
inductive TimedEvent where
  | row (now : Nat) (record : List String)
  | timer (uploadOk : Bool)
  deriving DecidableEq, Repr

/-- The loop entered at instant `now`: the first `select` evaluates
`time.After(EXPORT_INTERVAL)`. -/
def timedStart (now : Nat) (s : Sink) : TimedLoop :=
  { st := loopStart s, deadline := now + EXPORT_INTERVAL }

/-- One iteration of the loop with time. The `select` statement sits inside
the `for`, so every iteration evaluates `time.After(EXPORT_INTERVAL)` anew:
after a record received at `now` the next `select` waits for a timer created
at `now`; after a tick, for a timer created at the instant of the tick. The
handling of an event takes no time in this model. -/
def timedStep (tl : TimedLoop) : TimedEvent → TimedLoop × Option UploadCall
  | .row now record =>
    ({ st := (loopStep tl.st (.row record)).1, deadline := now + EXPORT_INTERVAL }, none)
  | .timer ok =>
    ({ st := (loopStep tl.st (.timer ok)).1, deadline := tl.deadline + EXPORT_INTERVAL },
      (loopStep tl.st (.timer ok)).2)

/-- The timed loop run over a sequence of events. -/
def timedRun (tl : TimedLoop) : List TimedEvent → TimedLoop
  | [] => tl
  | e :: rest => timedRun (timedStep tl e).1 rest

/-! ## Reference definitions that follow the wording of the specification -/

/-- Specification wording of the tag formatter (section 4.1): a raw tag whose
field identifier has no name in the map is skipped, every other tag gives
`name=value` followed by the separator `;`, in the order supplied. -/
def formatSpec (fields : FieldMap) (rawTags : List BaseCustomFieldValue) : String :=
  String.join (rawTags.filterMap
    (fun kv => (fields kv.Key).map (fun name => name ++ "=" ++ fmtValue kv ++ ";")))

/-- The fragment the code appends for one raw tag. -/
def fragment (fields : FieldMap) (kv : BaseCustomFieldValue) : String :=
  pairOf fields kv ++ ";"

/-- Name order on instances: `a` may stand before `b`. -/
def nameLE (a b : VirtualMachine) : Prop :=
  ByName.Less b a = false

instance nameLE.decidable : DecidableRel nameLE :=
  fun a b => inferInstanceAs (Decidable (ByName.Less b a = false))

/-- Specification wording of the snapshot order (section 4.2): the stable sort
by name, ties broken by original retrieval order. -/
def stableSortByName (vmt : List VirtualMachine) : List VirtualMachine :=
  List.insertionSort nameLE vmt

/-! ## One implementation that meets the contract of `sort.Sort` -/

/-- Method `ByName.Swap(i, j)` of line 57 on a list: exchange the elements at `i`
and `j`. -/
def swapAt (data : List VirtualMachine) (i j : Nat) : List VirtualMachine :=
  match data[i]?, data[j]? with
  | some x, some y => (data.set i y).set j x
  | _, _ => data

/-- The pass `for i := a + 6; i < b; i++ { if data.Less(i, i-6) { data.Swap(i, i-6) } }`
that `sort.Sort` of the Go releases 1.6 to 1.18 runs on a slice of at most
twelve elements before its insertion sort. -/
def gapPass (data : List VirtualMachine) : List VirtualMachine :=
  (List.range' 6 (data.length - 6)).foldl
    (fun d i =>
      match d[i]?, d[i - 6]? with
      | some x, some y => if ByName.Less x y then swapAt d i (i - 6) else d
      | _, _ => d)
    data

/-- A sorting function meeting `SortContract`: the gap pass followed by an
insertion sort. On slices of two to twelve elements this is what `sort.Sort`
of the Go releases 1.6 to 1.18 computes. -/
def gapInsertionSort (vmt : List VirtualMachine) : List VirtualMachine :=
  List.insertionSort nameLE (gapPass vmt)

/-! ## Invariant of the batch export loop -/

/-- The loop state `st` holds exactly the records `acc` received since the
last flush: nothing in `body`, the header and then `acc` in the writer, and
`written` raised exactly when `acc` is not empty. -/
def LoopInv (st : LoopState) (acc : List (List String)) : Prop :=
  st.sink.body = "" ∧ st.sink.pending = csvAll (header :: acc) ∧
    (st.written = false ↔ acc = [])

/-- Two records used in the examples. -/
def rowA : List String := ["10.0.0.1", "Default", "A", "env=prod;"]

/-- The second example record. -/
def rowB : List String := ["10.0.0.2", "Default", "B", ""]

/-- The field map of the examples: `1` is `env`, `2` is `tier`. -/
def fieldsEx : FieldMap := mkFields [⟨1, "env"⟩, ⟨2, "tier"⟩]

/-- Instance `A` at `10.0.0.1` with the tag `env=prod`. -/
def vmA : VirtualMachine :=
  { Name := "A", Guest := some ⟨"10.0.0.1"⟩, CustomValue := [.CustomFieldStringValue 1 "prod"] }

/-- Instance `B` with guest information present and an empty IP address. -/
def vmB : VirtualMachine :=
  { Name := "B", Guest := some ⟨""⟩, CustomValue := [] }

/-- Instance `A` with an unmapped tag (field `7`) between two mapped ones. -/
def vmUnmapped : VirtualMachine :=
  { Name := "A", Guest := some ⟨"10.0.0.1"⟩,
    CustomValue := [.CustomFieldStringValue 1 "prod"] ++
      .CustomFieldStringValue 7 "x" :: [.CustomFieldStringValue 2 "web"] }

/-- Instance `A` with three mapped tags, two of them under the same name. -/
def vmTagged : VirtualMachine :=
  { Name := "A", Guest := some ⟨"10.0.0.1"⟩,
    CustomValue := [.CustomFieldStringValue 1 "prod", .CustomFieldStringValue 2 "web",
      .CustomFieldStringValue 1 "test"] }

/-- One second, in nanoseconds. -/
def second : Nat := 1000000000

/-- Seven retrieved instances: two named `b` (addresses `.1` then `.2`), four
named `c`, one named `a`. -/
def vmSeven : List VirtualMachine :=
  [⟨"b", some ⟨"10.0.0.1"⟩, []⟩, ⟨"b", some ⟨"10.0.0.2"⟩, []⟩, ⟨"c", some ⟨"10.0.0.3"⟩, []⟩,
   ⟨"c", some ⟨"10.0.0.4"⟩, []⟩, ⟨"c", some ⟨"10.0.0.5"⟩, []⟩, ⟨"c", some ⟨"10.0.0.6"⟩, []⟩,
   ⟨"a", some ⟨"10.0.0.7"⟩, []⟩]

/-- The sink left behind by the snapshot of the single instance `A`. -/
def sinkEx : Sink := snapshotSink stableSortByName fieldsEx [vmA]

/-! ## Auxiliary lemmas: strings -/

theorem join_nil : String.join [] = "" := rfl

theorem join_cons (a : String) (l : List String) :
    String.join (a :: l) = a ++ String.join l := by
  apply String.ext
  simp [String.data_join, String.data_append]

theorem join_append (l₁ l₂ : List String) :
    String.join (l₁ ++ l₂) = String.join l₁ ++ String.join l₂ := by
  apply String.ext
  simp [String.data_join, String.data_append]

theorem length_join (l : List String) :
    (String.join l).length = (l.map String.length).sum := by
  induction l with
  | nil => rfl
  | cons a l ih => rw [join_cons, String.length_append, ih]; simp

theorem csvAll_cons (record : List String) (records : List (List String)) :
    csvAll (record :: records) = csvRecord record ++ csvAll records := by
  simp [csvAll, join_cons]

theorem csvAll_append_singleton (records : List (List String)) (record : List String) :
    csvAll (records ++ [record]) = csvAll records ++ csvRecord record := by
  simp [csvAll, join_append, join_cons, join_nil]

/-! ## Auxiliary lemmas: tag formatting -/

theorem tagLoop_eq (fields : FieldMap) (b : String) (cv : List BaseCustomFieldValue) :
    tagLoop fields b cv = b ++ String.join (cv.map (fragment fields)) := by
  induction cv generalizing b with
  | nil => simp [tagLoop, join_nil]
  | cons kv rest ih =>
    simp only [tagLoop, ih, List.map_cons, join_cons, fragment, String.append_assoc]

theorem tagString_eq (fields : FieldMap) (cv : List BaseCustomFieldValue) :
    tagString fields cv = String.join (cv.map (fragment fields)) := by
  unfold tagString
  split
  · rw [tagLoop_eq, String.empty_append]
  · rename_i h
    have : cv = [] := by
      cases cv with
      | nil => rfl
      | cons a l => simp at h
    subst this
    rfl

/-! ## Auxiliary lemmas: batch export loop -/

theorem loopStart_snapshotSink (sortSort : List VirtualMachine → List VirtualMachine)
    (fields : FieldMap) (vmt : List VirtualMachine) :
    loopStart (snapshotSink sortSort fields vmt) = loopInit := by
  simp [loopStart, snapshotSink, Sink.Flush, Sink.Reset, Sink.Write, loopInit]

theorem loopInv_init : LoopInv loopInit [] := by
  refine ⟨rfl, ?_, by simp [loopInit]⟩
  simp [loopInit, csvAll, join_cons, join_nil]

theorem loopInv_step (st : LoopState) (acc : List (List String)) (e : LoopEvent)
    (h : LoopInv st acc) :
    LoopInv (loopStep st e).1 (sinceFlush acc [(e, (loopStep st e).2)]) := by
  obtain ⟨hb, hp, hw⟩ := h
  cases e with
  | row record =>
    refine ⟨by simpa [loopStep, Sink.Write] using hb, ?_, by simp [loopStep, sinceFlush]⟩
    simp only [loopStep, Sink.Write, sinceFlush, hp]
    rw [← List.cons_append, csvAll_append_singleton]
  | timer ok =>
    by_cases hwr : st.written = true
    · simp only [loopStep, hwr, if_true, sinceFlush]
      refine ⟨rfl, ?_, by simp⟩
      simp [Sink.Write, Sink.Flush, Sink.Reset, csvAll, join_cons, join_nil]
    · simp only [loopStep, hwr, sinceFlush]
      exact ⟨hb, hp, hw⟩

theorem sinceFlush_cons (acc : List (List String)) (x : LoopEvent × Option UploadCall)
    (rest : List (LoopEvent × Option UploadCall)) :
    sinceFlush acc (x :: rest) = sinceFlush (sinceFlush acc [x]) rest := by
  obtain ⟨e, o⟩ := x
  cases e with
  | row record => simp [sinceFlush]
  | timer ok => cases o <;> simp [sinceFlush]

theorem loopInv_run (events : List LoopEvent) :
    ∀ (st : LoopState) (acc : List (List String)), LoopInv st acc →
      LoopInv (loopRun st events).1 (sinceFlush acc (events.zip (loopRun st events).2)) := by
  induction events with
  | nil => intro st acc h; simpa [loopRun, sinceFlush] using h
  | cons e rest ih =>
    intro st acc h
    have h1 := loopInv_step st acc e h
    have h2 := ih _ _ h1
    simp only [loopRun, List.zip_cons_cons]
    rw [sinceFlush_cons]
    exact h2

theorem loopInv_received (events : List LoopEvent) :
    LoopInv (loopRun loopInit events).1 (receivedSinceFlush events) :=
  loopInv_run events loopInit [] loopInv_init

/-! ## The batch export loop: claims C1, C2, C3 -/

/-- C1 (as stated, refuted). After one record the batch is dirty and holds the
record; a tick whose upload fails nevertheless leaves the loop in its initial
state, with no record in the buffer and `written = false`, and the payload of
the next flush holds only the record received afterwards. -/
theorem failedUpload_loses_rows :
    (loopRun loopInit [.row rowA]).1.written = true ∧
    (loopRun loopInit [.row rowA]).1.sink.pending = csvAll [header, rowA] ∧
    (loopStep (loopRun loopInit [.row rowA]).1 (.timer false)).1 = loopInit ∧
    (loopStep (loopRun loopInit [.row rowA]).1 (.timer false)).1.written ≠ true ∧
    (loopRun loopInit [.row rowA, .timer false, .row rowB, .timer true]).2 =
      [none, some ⟨csvAll [header, rowA], true, true⟩,
       none, some ⟨csvAll [header, rowB], true, true⟩] := by
  decide

/-- C1 (amended). For every batch state with `written = true` and every timer
tick, whether its upload succeeds or fails, the tick makes one upload call
with the whole buffer and then resets the batch to the header alone with
`written = false`: the rows of the attempt are not retained. -/
theorem flush_resets_batch (st : LoopState) (uploadOk : Bool) (h : st.written = true) :
    loopStep st (.timer uploadOk) =
      ({ sink := { body := "", pending := csvRecord header }, written := false },
        some { payload := st.sink.body ++ st.sink.pending, append := true, verifyTLS := true }) := by
  simp [loopStep, h, Sink.Flush, Sink.Reset, Sink.Write]

/-- Witness for `flush_resets_batch`: the dirty state reached after one record,
with a failing upload. -/
theorem flush_resets_batch_witness :
    (loopRun loopInit [.row rowA]).1.written = true ∧
    loopStep (loopRun loopInit [.row rowA]).1 (.timer false) =
      ({ sink := { body := "", pending := csvRecord header }, written := false },
        some { payload := (loopRun loopInit [.row rowA]).1.sink.body ++
                 (loopRun loopInit [.row rowA]).1.sink.pending,
               append := true, verifyTLS := true }) :=
  ⟨by decide, flush_resets_batch _ false (by decide)⟩

/-- C2. After any sequence of received records and timer ticks from the
initial state (whatever the outcome of the uploads), a tick that finds
`written = true` uploads the header line `IP,VRF,VM Name,VM Tags` followed by
exactly the records received since the last flush, once each, in arrival
order. -/
theorem flush_payload (events : List LoopEvent) (uploadOk : Bool)
    (h : (loopRun loopInit events).1.written = true) :
    (loopStep (loopRun loopInit events).1 (.timer uploadOk)).2 =
      some { payload := "IP,VRF,VM Name,VM Tags\n" ++ csvAll (receivedSinceFlush events),
             append := true, verifyTLS := true } := by
  obtain ⟨hb, hp, _⟩ := loopInv_received events
  have hh : csvRecord header = "IP,VRF,VM Name,VM Tags\n" := by decide
  simp [loopStep, h, Sink.Flush, hb, hp, csvAll_cons, hh]

/-- Witness for `flush_payload`: a record, a flush, an idle tick, then two
records; the next tick uploads the header and the two later records only. -/
theorem flush_payload_witness :
    (loopRun loopInit [.row rowA, .timer true, .timer true, .row rowB, .row rowA]).1.written
      = true ∧
    (loopStep (loopRun loopInit
        [.row rowA, .timer true, .timer true, .row rowB, .row rowA]).1 (.timer true)).2 =
      some { payload := "IP,VRF,VM Name,VM Tags\n" ++ csvAll (receivedSinceFlush
               [.row rowA, .timer true, .timer true, .row rowB, .row rowA]),
             append := true, verifyTLS := true } :=
  ⟨by decide, flush_payload _ true (by decide)⟩

/-- C3. A timer tick in a state with `written = false` makes no upload call and
leaves buffer, writer and flag unchanged; and after any sequence of events
from the initial state, `written = false` holds exactly when no record has
been received since the last flush (or since the start). -/
theorem idle_tick_noop :
    (∀ (sink : Sink) (uploadOk : Bool),
      loopStep { sink := sink, written := false } (.timer uploadOk) =
        ({ sink := sink, written := false }, none)) ∧
    (∀ events : List LoopEvent,
      (loopRun loopInit events).1.written = false ↔ receivedSinceFlush events = []) :=
  ⟨fun _ _ => by simp [loopStep], fun events => (loopInv_received events).2.2⟩

/-! ## Row filter and tag formatting: claims C4, C5, C6, C10 -/

/-- C4 (the code at the failing input). Instance `B` has guest information and
an empty IP address: the snapshot of `A` and `B` holds two data rows, the
second with an empty address column, and the event handler sends a row with
an empty address for `B` as well. -/
theorem emptyAddress_row_emitted :
    snapshotRows stableSortByName fieldsEx [vmA, vmB] =
      [["10.0.0.1", "Default", "A", "env=prod;"], ["", "Default", "B", ""]] ∧
    (snapshotUpload stableSortByName fieldsEx [vmA, vmB]).payload =
      "IP,VRF,VM Name,VM Tags\n10.0.0.1,Default,A,env=prod;\n,Default,B,\n" ∧
    handleEvent (fun _ => vmB) fieldsEx [.VmRenamedEvent "vm-2"] = [["", "Default", "B", ""]] ∧
    handleEvent (fun _ => vmB) fieldsEx [.CustomFieldValueChangedEvent "vm-2"] =
      [["", "Default", "B", ""]] := by
  decide

/-- C5 (as stated, refuted). With no name for field `7`, the tag `7 ↦ x` puts
the fragment `=x;` into the tag string, which therefore differs from the tag
string of the sequence with the unmapped tag removed. -/
theorem unmapped_tag_not_skipped :
    fieldsEx 7 = none ∧
    tagString fieldsEx [.CustomFieldStringValue 7 "x"] = "=x;" ∧
    tagString fieldsEx [.CustomFieldStringValue 7 "x"] ≠
      tagString fieldsEx
        ([BaseCustomFieldValue.CustomFieldStringValue 7 "x"].filter
          (fun kv => (fieldsEx kv.Key).isSome)) ∧
    tagString fieldsEx [.CustomFieldStringValue 7 "x"] ≠
      formatSpec fieldsEx [.CustomFieldStringValue 7 "x"] := by
  decide

/-- C5 (amended). A raw tag whose field identifier is absent from the map
contributes the fragment `=value;`, with an empty name, at its position in the
tag string; the row of the instance is still emitted. -/
theorem unmapped_tag_fragment (fields : FieldMap) (pre post : List BaseCustomFieldValue)
    (kv : BaseCustomFieldValue) (name : String) (g : GuestInfo) (h : fields kv.Key = none) :
    tagString fields (pre ++ kv :: post) =
      tagString fields pre ++ ("=" ++ fmtValue kv ++ ";") ++ tagString fields post ∧
    vmRow fields { Name := name, Guest := some g, CustomValue := pre ++ kv :: post } =
      some [g.IpAddress, "Default", name, tagString fields (pre ++ kv :: post)] := by
  refine ⟨?_, rfl⟩
  simp only [tagString_eq, List.map_append, List.map_cons, join_append, join_cons, fragment,
    pairOf, FieldMap.index, h, Option.getD_none, String.empty_append, String.append_assoc]

/-- Witness for `unmapped_tag_fragment`: field `7` has no name in the example
map. -/
theorem unmapped_tag_fragment_witness :
    fieldsEx 7 = none ∧
    (tagString fieldsEx
        ([.CustomFieldStringValue 1 "prod"] ++
          .CustomFieldStringValue 7 "x" :: [.CustomFieldStringValue 2 "web"]) =
      tagString fieldsEx [.CustomFieldStringValue 1 "prod"] ++
        ("=" ++ fmtValue (.CustomFieldStringValue 7 "x") ++ ";") ++
        tagString fieldsEx [.CustomFieldStringValue 2 "web"] ∧
    vmRow fieldsEx vmUnmapped =
      some ["10.0.0.1", "Default", "A",
        tagString fieldsEx ([.CustomFieldStringValue 1 "prod"] ++
          .CustomFieldStringValue 7 "x" :: [.CustomFieldStringValue 2 "web"])]) :=
  ⟨by decide, unmapped_tag_fragment fieldsEx _ _ _ "A" ⟨"10.0.0.1"⟩ (by decide)⟩

/-- C6. When every field identifier of the raw tags has a name in the map, the
tag column is the concatenation, in the order supplied, of
`name ++ "=" ++ value ++ ";"` over all tags (which is also what the
specification's formatter gives), it is empty for the empty sequence, and the
row emitted on either path is `[address, "Default", name, tag column]`. -/
theorem tagString_format (fields : FieldMap) (vm : VirtualMachine) (g : GuestInfo)
    (hg : vm.Guest = some g)
    (hm : ∀ kv ∈ vm.CustomValue, (fields kv.Key).isSome = true) :
    tagString fields vm.CustomValue =
      String.join (vm.CustomValue.map
        (fun kv => fields.index kv.Key ++ "=" ++ fmtValue kv ++ ";")) ∧
    tagString fields vm.CustomValue = formatSpec fields vm.CustomValue ∧
    tagString fields [] = "" ∧
    vmRow fields vm =
      some [g.IpAddress, "Default", vm.Name, formatSpec fields vm.CustomValue] := by
  have h1 : tagString fields vm.CustomValue = formatSpec fields vm.CustomValue := by
    rw [tagString_eq, formatSpec]
    congr 1
    generalize vm.CustomValue = cv at hm
    induction cv with
    | nil => rfl
    | cons kv rest ih =>
      obtain ⟨name, hn⟩ := Option.isSome_iff_exists.mp (hm kv (List.mem_cons_self _ _))
      have ih' := ih (fun kv' hkv' => hm kv' (List.mem_cons_of_mem _ hkv'))
      simp only [List.map_cons, List.filterMap_cons, hn, Option.map_some', ih', fragment, pairOf,
        FieldMap.index, Option.getD_some]
  refine ⟨?_, h1, rfl, ?_⟩
  · rw [tagString_eq]; rfl
  · simp only [vmRow, hg, h1]

/-- Witness for `tagString_format`: instance `A` with two named tags, one of
them repeated under the same name. -/
theorem tagString_format_witness :
    tagString fieldsEx vmTagged.CustomValue = "env=prod;tier=web;env=test;" ∧
    vmRow fieldsEx vmTagged =
      some ["10.0.0.1", "Default", "A", "env=prod;tier=web;env=test;"] :=
  have h := tagString_format fieldsEx vmTagged ⟨"10.0.0.1"⟩ rfl (by decide)
  ⟨h.1.trans (by decide), h.2.2.2.trans (by decide)⟩

/-- C10 (as stated, refuted). The same two tags retrieved in the two possible
orders give different tag strings, hence different rows. -/
theorem tagString_order_dependent :
    List.Perm [BaseCustomFieldValue.CustomFieldStringValue 1 "prod", .CustomFieldStringValue 2 "web"]
      [.CustomFieldStringValue 2 "web", .CustomFieldStringValue 1 "prod"] ∧
    tagString fieldsEx [.CustomFieldStringValue 1 "prod", .CustomFieldStringValue 2 "web"] =
      "env=prod;tier=web;" ∧
    tagString fieldsEx [.CustomFieldStringValue 2 "web", .CustomFieldStringValue 1 "prod"] =
      "tier=web;env=prod;" ∧
    tagString fieldsEx [.CustomFieldStringValue 1 "prod", .CustomFieldStringValue 2 "web"] ≠
      tagString fieldsEx [.CustomFieldStringValue 2 "web", .CustomFieldStringValue 1 "prod"] :=
  ⟨List.Perm.swap _ _ _, by decide, by decide, by decide⟩

/-- C10 (amended). The tag string is the concatenation of the per-tag
fragments `name=value;` in the order of the sequence. For two sequences that
are permutations of one another the fragments are the same up to order and
the tag strings have the same length. -/
theorem tagString_perm (fields : FieldMap) (tags tags' : List BaseCustomFieldValue)
    (h : tags.Perm tags') :
    tagString fields tags = String.join (tags.map (fragment fields)) ∧
    tagString fields tags' = String.join (tags'.map (fragment fields)) ∧
    (tags.map (fragment fields)).Perm (tags'.map (fragment fields)) ∧
    (tagString fields tags).length = (tagString fields tags').length := by
  refine ⟨tagString_eq _ _, tagString_eq _ _, h.map _, ?_⟩
  rw [tagString_eq, tagString_eq, length_join, length_join]
  exact ((h.map _).map _).sum_eq

/-- Witness for `tagString_perm`: the two orders of the tags of the example. -/
theorem tagString_perm_witness :
    List.Perm [BaseCustomFieldValue.CustomFieldStringValue 1 "prod", .CustomFieldStringValue 2 "web"]
      [.CustomFieldStringValue 2 "web", .CustomFieldStringValue 1 "prod"] ∧
    (tagString fieldsEx [.CustomFieldStringValue 1 "prod", .CustomFieldStringValue 2 "web"]).length
      = (tagString fieldsEx
          [.CustomFieldStringValue 2 "web", .CustomFieldStringValue 1 "prod"]).length :=
  ⟨List.Perm.swap _ _ _, (tagString_perm fieldsEx _ _ (List.Perm.swap _ _ _)).2.2.2⟩

/-! ## Upload flags and timer: claims C8, C7 -/

/-- C8 (as stated, refuted). The snapshot upload is made with the append flag
`true`, not `false`, and the flags of a flush upload are the same pair. -/
theorem upload_flags_identical :
    (snapshotUpload stableSortByName fieldsEx [vmA]).append = true ∧
    (snapshotUpload stableSortByName fieldsEx [vmA]).append ≠ false ∧
    (loopStep (loopRun loopInit [.row rowA]).1 (.timer true)).2 =
      some ⟨csvAll [header, rowA], true, true⟩ ∧
    (loopStep (loopRun loopInit [.row rowA]).1 (.timer true)).2.map
        (fun call => (call.append, call.verifyTLS)) =
      some ((snapshotUpload stableSortByName fieldsEx [vmA]).append,
        (snapshotUpload stableSortByName fieldsEx [vmA]).verifyTLS) := by
  decide

/-- C8 (amended). The snapshot upload and every flush upload pass the same
flags to the ingestion client, `(true, true)`: both are made with the append
flag set. -/
theorem upload_flags_same (sortSort : List VirtualMachine → List VirtualMachine)
    (fields : FieldMap) (vmt : List VirtualMachine) (st : LoopState) (uploadOk : Bool)
    (call : UploadCall) (h : (loopStep st (.timer uploadOk)).2 = some call) :
    (snapshotUpload sortSort fields vmt).append = true ∧
    (snapshotUpload sortSort fields vmt).verifyTLS = true ∧
    call.append = true ∧ call.verifyTLS = true := by
  refine ⟨rfl, rfl, ?_⟩
  by_cases hw : st.written = true
  · simp only [loopStep, hw, if_true, Option.some.injEq] at h
    subst h
    exact ⟨rfl, rfl⟩
  · simp [loopStep, hw] at h

/-- Witness for `upload_flags_same`: the flush after one record. -/
theorem upload_flags_same_witness :
    (loopStep (loopRun loopInit [.row rowA]).1 (.timer true)).2 =
      some ⟨csvAll [header, rowA], true, true⟩ ∧
    ((snapshotUpload stableSortByName fieldsEx [vmA]).append = true ∧
     (snapshotUpload stableSortByName fieldsEx [vmA]).verifyTLS = true ∧
     (UploadCall.mk (csvAll [header, rowA]) true true).append = true ∧
     (UploadCall.mk (csvAll [header, rowA]) true true).verifyTLS = true) :=
  ⟨by decide,
    upload_flags_same stableSortByName fieldsEx [vmA] (loopRun loopInit [.row rowA]).1 true
      ⟨csvAll [header, rowA], true, true⟩ (by decide)⟩

theorem timedRun_append (tl : TimedLoop) (events events' : List TimedEvent) :
    timedRun tl (events ++ events') = timedRun (timedRun tl events) events' := by
  induction events generalizing tl with
  | nil => rfl
  | cons e rest ih => simp [timedRun, ih]

/-- C7 (as stated, refuted). The loop starts at instant 0 with its timer due
at 60 s. A record received at 30 s moves the deadline to 90 s and makes the
batch dirty; a second record at 80 s, still before the timer fires, moves it
to 140 s, later than 30 s plus EXPORT_INTERVAL. -/
theorem row_moves_deadline :
    (timedStart 0 sinkEx).deadline = 60 * second ∧
    (timedStep (timedStart 0 sinkEx) (.row (30 * second) rowA)).1.deadline = 90 * second ∧
    (timedStep (timedStart 0 sinkEx) (.row (30 * second) rowA)).1.deadline ≠
      (timedStart 0 sinkEx).deadline ∧
    (timedStep (timedStart 0 sinkEx) (.row (30 * second) rowA)).1.st.written = true ∧
    80 * second < (timedStep (timedStart 0 sinkEx) (.row (30 * second) rowA)).1.deadline ∧
    (timedRun (timedStart 0 sinkEx)
      [.row (30 * second) rowA, .row (80 * second) rowB]).deadline = 140 * second ∧
    30 * second + EXPORT_INTERVAL <
      (timedRun (timedStart 0 sinkEx)
        [.row (30 * second) rowA, .row (80 * second) rowB]).deadline := by
  decide

/-- C7 (amended). EXPORT_INTERVAL is one minute and the timer is armed anew in
every iteration of the loop: after a record received at instant `now` the
pending timer is due at `now + EXPORT_INTERVAL`, after a tick it is due one
interval after that tick. Hence after any events ending with a record received
at `now` the batch is dirty and its flush check is due at
`now + EXPORT_INTERVAL`, one interval after the latest arrival. -/
theorem timer_rearmed_each_iteration :
    EXPORT_INTERVAL = 60 * second ∧
    (∀ (tl : TimedLoop) (now : Nat) (record : List String),
      (timedStep tl (.row now record)).1.deadline = now + EXPORT_INTERVAL) ∧
    (∀ (tl : TimedLoop) (uploadOk : Bool),
      (timedStep tl (.timer uploadOk)).1.deadline = tl.deadline + EXPORT_INTERVAL) ∧
    (∀ (tl : TimedLoop) (events : List TimedEvent) (now : Nat) (record : List String),
      (timedRun tl (events ++ [.row now record])).deadline = now + EXPORT_INTERVAL ∧
      (timedRun tl (events ++ [.row now record])).st.written = true) := by
  refine ⟨by decide, fun _ _ _ => rfl, fun _ _ => rfl, fun tl events now record => ?_⟩
  rw [timedRun_append]
  exact ⟨rfl, rfl⟩

/-! ## Snapshot order: claim C9 -/

theorem nameLE_iff (a b : VirtualMachine) : nameLE a b ↔ a.Name.toList ≤ b.Name.toList := by
  simp [nameLE, ByName.Less, strLess]

theorem nameLE_total (a b : VirtualMachine) : nameLE a b ∨ nameLE b a := by
  simp only [nameLE_iff]
  exact le_total _ _

theorem nameLE_trans (a b c : VirtualMachine) (h₁ : nameLE a b) (h₂ : nameLE b c) :
    nameLE a c := by
  simp only [nameLE_iff] at *
  exact le_trans h₁ h₂

theorem swapAt_perm (data : List VirtualMachine) (i j : Nat) :
    (swapAt data i j).Perm data := by
  unfold swapAt
  split
  · rename_i x y hx hy
    obtain ⟨hi, rfl⟩ := List.getElem?_eq_some_iff.mp hx
    obtain ⟨hj, rfl⟩ := List.getElem?_eq_some_iff.mp hy
    rw [List.perm_iff_count]
    intro a
    have h1 := List.count_set data[j] a data i hi
    have hj' : j < (data.set i data[j]).length := by simpa using hj
    have h2 := List.count_set data[i] a (data.set i data[j]) j hj'
    have h3 : (data.set i data[j])[j] = data[j] := by
      rw [List.getElem_set]; split <;> simp_all
    rw [h3] at h2
    have h4 := List.boole_getElem_le_count a data i hi
    have h5 := List.boole_getElem_le_count a data j hj
    rw [h2, h1]
    by_cases e1 : data[i] = a <;> by_cases e2 : data[j] = a <;> simp_all
  · rfl

theorem gapPass_perm (data : List VirtualMachine) : (gapPass data).Perm data := by
  unfold gapPass
  generalize List.range' 6 (data.length - 6) = idx
  suffices h : ∀ d : List VirtualMachine, d.Perm data →
      (idx.foldl (fun d i =>
        match d[i]?, d[i - 6]? with
        | some x, some y => if ByName.Less x y then swapAt d i (i - 6) else d
        | _, _ => d) d).Perm data from h data (List.Perm.refl _)
  induction idx with
  | nil => intro d hd; simpa using hd
  | cons i rest ih =>
    intro d hd
    rw [List.foldl_cons]
    apply ih
    split
    · split
      · exact (swapAt_perm d i (i - 6)).trans hd
      · exact hd
    · exact hd

theorem gapInsertionSort_contract : SortContract gapInsertionSort := by
  haveI : IsTotal VirtualMachine nameLE := ⟨nameLE_total⟩
  haveI : IsTrans VirtualMachine nameLE := ⟨nameLE_trans⟩
  constructor
  · intro vmt
    exact (List.perm_insertionSort nameLE (gapPass vmt)).trans (gapPass_perm vmt)
  · intro vmt
    exact List.sorted_insertionSort nameLE (gapPass vmt)

theorem writeRows_eq (fields : FieldMap) (vms : List VirtualMachine) :
    ∀ s : Sink, writeRows fields s vms =
      { s with pending := s.pending ++ csvAll (vms.filterMap (vmRow fields)) } := by
  induction vms with
  | nil => intro s; simp [writeRows, csvAll, join_nil]
  | cons vm rest ih =>
    intro s
    cases hrow : vmRow fields vm with
    | none => simp [writeRows, hrow, ih]
    | some row =>
      simp [writeRows, hrow, ih, Sink.Write, csvAll_cons, String.append_assoc]

theorem snapshot_payload_eq (sortSort : List VirtualMachine → List VirtualMachine)
    (fields : FieldMap) (vmt : List VirtualMachine) :
    (snapshotUpload sortSort fields vmt).payload =
      csvAll (header :: snapshotRows sortSort fields vmt) := by
  simp [snapshotUpload, snapshotSink, writeRows_eq, Sink.Flush, Sink.Write, Sink.new,
    csvAll_cons, snapshotRows]

theorem vmRow_name (fields : FieldMap) (vm : VirtualMachine) (row : List String)
    (h : vmRow fields vm = some row) : row.getD 2 "" = vm.Name := by
  unfold vmRow at h
  split at h
  · simp at h
  · simp only [Option.some.injEq] at h
    subst h
    rfl

/-- C9 (as stated, refuted). The function `gapInsertionSort` meets the contract
of `sort.Sort`, and on seven instances, two of them named `b`, the snapshot
written with it lists the second retrieved `b` (address `10.0.0.2`) before
the first (address `10.0.0.1`), unlike the stable sort by name. -/
theorem snapshot_order_not_stable :
    SortContract gapInsertionSort ∧
    snapshotRows gapInsertionSort fieldsEx vmSeven =
      [["10.0.0.7", "Default", "a", ""], ["10.0.0.2", "Default", "b", ""],
       ["10.0.0.1", "Default", "b", ""], ["10.0.0.3", "Default", "c", ""],
       ["10.0.0.4", "Default", "c", ""], ["10.0.0.5", "Default", "c", ""],
       ["10.0.0.6", "Default", "c", ""]] ∧
    (stableSortByName vmSeven).filterMap (vmRow fieldsEx) =
      [["10.0.0.7", "Default", "a", ""], ["10.0.0.1", "Default", "b", ""],
       ["10.0.0.2", "Default", "b", ""], ["10.0.0.3", "Default", "c", ""],
       ["10.0.0.4", "Default", "c", ""], ["10.0.0.5", "Default", "c", ""],
       ["10.0.0.6", "Default", "c", ""]] ∧
    snapshotRows gapInsertionSort fieldsEx vmSeven ≠
      (stableSortByName vmSeven).filterMap (vmRow fieldsEx) :=
  ⟨gapInsertionSort_contract, by decide, by decide, by decide⟩

/-- C9 (amended). For every sorting function meeting the contract of
`sort.Sort`, every field map and every retrieved list: the snapshot payload
is the header followed by the data rows, the names (third column) are
non-decreasing down the data rows, and the data rows are a permutation of the
rows of the retrieved instances that pass the guard. Nothing is claimed about
the order of instances with equal names. -/
theorem snapshot_sorted_perm (sortSort : List VirtualMachine → List VirtualMachine)
    (hs : SortContract sortSort) (fields : FieldMap) (vmt : List VirtualMachine) :
    (snapshotUpload sortSort fields vmt).payload =
      csvAll (header :: snapshotRows sortSort fields vmt) ∧
    ((snapshotRows sortSort fields vmt).map (fun row => row.getD 2 "")).Pairwise
      (fun n m => strLess m n = false) ∧
    (snapshotRows sortSort fields vmt).Perm (vmt.filterMap (vmRow fields)) := by
  refine ⟨snapshot_payload_eq _ _ _, ?_, (hs.perm vmt).filterMap _⟩
  rw [List.pairwise_map]
  unfold snapshotRows
  refine List.Pairwise.filterMap (vmRow fields) ?_ (hs.ascending vmt)
  intro a a' haa' b hb b' hb'
  rw [vmRow_name fields a b hb, vmRow_name fields a' b' hb']
  exact haa'

/-- Witness for `snapshot_sorted_perm`: the insertion sort by name meets the
contract; the snapshot of `B` and `A` lists `A` first. -/
theorem snapshot_sorted_perm_witness :
    SortContract stableSortByName ∧
    ((snapshotUpload stableSortByName fieldsEx [vmB, vmA]).payload =
      csvAll (header :: snapshotRows stableSortByName fieldsEx [vmB, vmA]) ∧
    ((snapshotRows stableSortByName fieldsEx [vmB, vmA]).map (fun row => row.getD 2 "")).Pairwise
      (fun n m => strLess m n = false) ∧
    (snapshotRows stableSortByName fieldsEx [vmB, vmA]).Perm
      ([vmB, vmA].filterMap (vmRow fieldsEx))) :=
  have hs : SortContract stableSortByName :=
    haveI : IsTotal VirtualMachine nameLE := ⟨nameLE_total⟩
    haveI : IsTrans VirtualMachine nameLE := ⟨nameLE_trans⟩
    ⟨fun vmt => List.perm_insertionSort nameLE vmt,
     fun vmt => List.sorted_insertionSort nameLE vmt⟩
  ⟨hs, snapshot_sorted_perm stableSortByName hs fieldsEx [vmB, vmA]⟩

end TetrationVC
